import Mathlib

/-!
Shallow embedding of `packages/backend/api/v1/orgs.ts` and
`packages/frontend/pages/evaluations/new.tsx` of the lunary repository,
with proofs of the behavioural properties of its route handlers and of
the evaluation-creation view.

Database rows are modelled as Lean structures.  The postgres query layer
(`@/utils/db`, not part of the reviewed files) returns each row with its
snake_case column names transformed to camelCase JavaScript keys; this is
required by the handlers' accesses `org?.playAllowance`,
`org.stripeCustomer` and `org.stripeSubscription` of the columns
`play_allowance`, `stripe_customer` and `stripe_subscription`, and by the
spec's description of the allowance guard ("Verifies and decrements a
daily allowance counter, rejects with an error if exhausted").  Where a
handler accesses a row by a literal JavaScript property name we model the
row as the key/value list that the query layer produces, so that an access
by a key that is absent (e.g. the snake_case `org.stripe_subscription` on
line 132) yields `undefined` exactly as in JavaScript.
-/

namespace Lunary

/-- An `org` table row, with the columns the handlers in this module read
or write.  Nullable text columns are `Option String`; `play_allowance` is
an integer column. -/
structure Org where
  id : String
  plan : String
  name : String
  playAllowance : Int
  stripeCustomer : Option String
  stripeSubscription : Option String
deriving Repr, DecidableEq

/-- The database state relevant to the org handlers: the `org` table. -/
abbrev Db := List Org

/-- `select ... from org where id = ${orgId}` followed by destructuring
`const [org] = ...`: the first row whose id matches, if any. -/
def findOrg (db : Db) (orgId : String) : Option Org :=
  db.find? (fun o => o.id == orgId)

/-! ### Provider selection (POST /playground, lines 188-288) -/

/-- The `OPENROUTER_MODELS` list, verbatim from lines 188-201. -/
def OPENROUTER_MODELS : List String :=
  ["mistralai/mistral-7b-instruct",
   "openai/gpt-4-32k",
   "openchat/openchat-7b",
   "teknium/openhermes-2.5-mistral-7b",
   "mistralai/mixtral-8x7b-instruct",
   "open-orca/mistral-7b-openorca",
   "perplexity/pplx-70b-chat",
   "perplexity/pplx-7b-chat",
   "google/gemini-pro",
   "google/palm-2-chat-bison",
   "meta-llama/llama-2-13b-chat",
   "meta-llama/llama-2-70b-chat"]

/-- The `ANTHROPIC_MODELS` list, verbatim from line 203. -/
def ANTHROPIC_MODELS : List String := ["claude-2", "claude-2.0", "claude-instant-v1"]

/-- Constructor parameters of the `OpenAI` client: api key (from the
environment, possibly unset), optional base URL, default headers. -/
structure OpenAIParams where
  apiKey : Option String
  baseURL : Option String
  defaultHeaders : List (String × String)
deriving Repr, DecidableEq

/-- The call strategy chosen for the completion request: the litellm
`completion` helper, or an `openai.chat.completions.create` bound to a
client built with the given parameters. -/
inductive Method where
  | litellmCompletion : Method
  | openaiChat : OpenAIParams → Method
deriving Repr, DecidableEq

/-- `const model = extra?.model || "gpt-3.5-turbo"` (line 263): a missing
or empty (falsy) model string falls back to the default. -/
def resolveModel (m : Option String) : String :=
  match m with
  | none => "gpt-3.5-turbo"
  | some s => if s == "" then "gpt-3.5-turbo" else s

/-- Lines 269-288: Anthropic models use litellm's `completion`; OpenRouter
models use an OpenAI client pointed at OpenRouter with custom headers;
every other model uses a direct OpenAI client. -/
def selectMethod (openrouterKey openaiKey : Option String) (model : String) : Method :=
  if model ∈ ANTHROPIC_MODELS then
    .litellmCompletion
  else if model ∈ OPENROUTER_MODELS then
    .openaiChat
      ⟨openrouterKey, some "https://openrouter.ai/api/v1",
       [("HTTP-Referer", "https://lunary.ai"), ("X-Title", "Lunary.ai")]⟩
  else
    .openaiChat ⟨openaiKey, none, []⟩

/-! ### POST /playground (lines 226-309) -/

/-- The error message thrown on line 236-238. -/
def playgroundErrorMsg : String :=
  "No allowance left today. Wait tomorrow or upgrade to continue using the playground."

/-- `update org set play_allowance = play_allowance - 1 where id = ${orgId}`
(lines 242-246). -/
def decrementAllowance (db : Db) (orgId : String) : Db :=
  db.map fun o =>
    if o.id == orgId then { o with playAllowance := o.playAllowance - 1 } else o

/-- The guard `org?.playAllowance <= 0` (line 235).  When the row is
absent, `org?.playAllowance` is `undefined` and `undefined <= 0` is
`false` in JavaScript. -/
def playgroundGuardFails (org : Option Org) : Bool :=
  match org with
  | some o => decide (o.playAllowance ≤ 0)
  | none => false

/-- The POST /playground handler: select the allowance, throw if the guard
trips, otherwise decrement the allowance and call the selected provider.
The result is the new database state together with either the thrown error
message or the provider-call strategy that is invoked. -/
def playground (openrouterKey openaiKey : Option String) (db : Db) (orgId : String)
    (extraModel : Option String) : Db × Except String Method :=
  if playgroundGuardFails (findOrg db orgId) then
    (db, .error playgroundErrorMsg)
  else
    (decrementAllowance db orgId,
     .ok (selectMethod openrouterKey openaiKey (resolveModel extraModel)))

/-! ### Theorems: C1, C10, C4 -/

/-- C1: for every organization whose stored play_allowance is ≤ 0,
POST /playground throws the "No allowance left" error; the database state
is unchanged (the decrement never runs) and no provider strategy is
selected or called. -/
theorem playground_rejects_when_no_allowance
    (rk ok : Option String) (db : Db) (orgId : String) (m : Option String)
    (o : Org) (hfind : findOrg db orgId = some o) (hle : o.playAllowance ≤ 0) :
    playground rk ok db orgId m = (db, Except.error playgroundErrorMsg) := by
  simp [playground, hfind, playgroundGuardFails, hle]

/-- Witness for C1 at a concrete state: one org with allowance 0. -/
theorem playground_rejects_when_no_allowance_witness :
    playground none none [⟨"org1", "free", "n", 0, none, none⟩] "org1" none
      = ([⟨"org1", "free", "n", 0, none, none⟩], Except.error playgroundErrorMsg) :=
  playground_rejects_when_no_allowance none none
    [⟨"org1", "free", "n", 0, none, none⟩] "org1" none
    ⟨"org1", "free", "n", 0, none, none⟩ (by decide) (by decide)

/-- Helper: when no org row matches the id, the decrement statement
affects no rows. -/
theorem decrementAllowance_of_findOrg_none (db : Db) (orgId : String)
    (hfind : findOrg db orgId = none) : decrementAllowance db orgId = db := by
  induction db with
  | nil => rfl
  | cons o rest ih =>
      rw [findOrg, List.find?_cons] at hfind
      by_cases h : (o.id == orgId) = true
      · simp [h] at hfind
      · simp only [Bool.not_eq_true] at h
        rw [h] at hfind
        have hrest := ih hfind
        unfold decrementAllowance at hrest ⊢
        rw [List.map_cons, if_neg (by simp [h]), hrest]

/-- C10: for an orgId with no matching org row, POST /playground does not
raise the allowance error: the guard is false (`undefined <= 0`), the
decrement runs but affects no rows, and the selected provider is called. -/
theorem playground_proceeds_when_org_missing
    (rk ok : Option String) (db : Db) (orgId : String) (m : Option String)
    (hfind : findOrg db orgId = none) :
    playground rk ok db orgId m
      = (db, Except.ok (selectMethod rk ok (resolveModel m))) := by
  simp [playground, hfind, playgroundGuardFails,
        decrementAllowance_of_findOrg_none db orgId hfind]

/-- Witness for C10: an org id absent from the table. -/
theorem playground_proceeds_when_org_missing_witness :
    playground none none [⟨"org1", "free", "n", 0, none, none⟩] "ghost" none
      = ([⟨"org1", "free", "n", 0, none, none⟩],
         Except.ok (selectMethod none none (resolveModel none))) :=
  playground_proceeds_when_org_missing none none
    [⟨"org1", "free", "n", 0, none, none⟩] "ghost" none (by decide)

/-- C4: the call strategy is selected solely by model-name membership:
ANTHROPIC_MODELS use litellm's completion helper; OPENROUTER_MODELS use an
OpenAI client with the OpenRouter base URL, OpenRouter key and custom
headers; every other model, including the default "gpt-3.5-turbo" used
when no model is given, uses a direct OpenAI client. -/
theorem playground_method_selection (rk ok : Option String) :
    (∀ m ∈ ANTHROPIC_MODELS, selectMethod rk ok m = .litellmCompletion) ∧
    (∀ m ∈ OPENROUTER_MODELS,
       selectMethod rk ok m
         = .openaiChat ⟨rk, some "https://openrouter.ai/api/v1",
             [("HTTP-Referer", "https://lunary.ai"), ("X-Title", "Lunary.ai")]⟩) ∧
    (∀ m, m ∉ ANTHROPIC_MODELS → m ∉ OPENROUTER_MODELS →
       selectMethod rk ok m = .openaiChat ⟨ok, none, []⟩) ∧
    resolveModel none = "gpt-3.5-turbo" ∧
    "gpt-3.5-turbo" ∉ ANTHROPIC_MODELS ∧ "gpt-3.5-turbo" ∉ OPENROUTER_MODELS := by
  refine ⟨?_, ?_, ?_, rfl, by decide, by decide⟩
  · intro m hm
    have : (m ∈ ANTHROPIC_MODELS) := hm
    simp [selectMethod, this]
  · intro m hm
    have hnotA : m ∉ ANTHROPIC_MODELS := by
      intro hA
      fin_cases hA <;> simp [OPENROUTER_MODELS] at hm
    simp [selectMethod, hnotA, hm]
  · intro m hA hO
    simp [selectMethod, hA, hO]

/-- Witness for C4 at concrete models: one from each of the three
families. -/
theorem playground_method_selection_witness :
    selectMethod none none "claude-2" = .litellmCompletion ∧
    selectMethod none none "google/gemini-pro"
      = .openaiChat ⟨none, some "https://openrouter.ai/api/v1",
          [("HTTP-Referer", "https://lunary.ai"), ("X-Title", "Lunary.ai")]⟩ ∧
    selectMethod none none "gpt-3.5-turbo" = .openaiChat ⟨none, none, []⟩ :=
  ⟨(playground_method_selection none none).1 "claude-2" (by decide),
   (playground_method_selection none none).2.1 "google/gemini-pro" (by decide),
   (playground_method_selection none none).2.2.1 "gpt-3.5-turbo" (by decide) (by decide)⟩

/-! ### POST /upgrade (lines 97-186) -/

/-- A Stripe price object as returned by `stripe.prices.list` filtered by
a lookup key. -/
structure Price where
  id : String
  lookupKey : String
deriving Repr, DecidableEq

/-- JavaScript truthiness of a nullable or possibly-absent string value
(`none` stands for both `null` and `undefined`, which are both falsy, as
is the empty string). -/
def jsTruthy (v : Option String) : Bool :=
  match v with
  | none => false
  | some s => !(s == "")

/-- `x || undefined`: a falsy value becomes `undefined`. -/
def jsOrUndefined (v : Option String) : Option String :=
  match v with
  | none => none
  | some s => if s == "" then none else some s

/-- The row produced by the select on lines 118-128, as the key/value
object the query layer returns: columns `id, plan, stripe_customer,
stripe_subscription` under their camelCase JavaScript keys. -/
def upgradeRow (o : Org) : List (String × Option String) :=
  [("id", some o.id), ("plan", some o.plan),
   ("stripeCustomer", o.stripeCustomer),
   ("stripeSubscription", o.stripeSubscription)]

/-- JavaScript property access on a row object: `undefined` (here `none`)
when the key is absent. -/
def rowGet (row : List (String × Option String)) (key : String) : Option String :=
  match row.find? (fun kv => kv.1 == key) with
  | some kv => kv.2
  | none => none

/-- The arguments of `stripe.checkout.sessions.create` (lines 133-150)
that depend on the request and database state. -/
structure CheckoutParams where
  clientReferenceId : String
  customer : Option String
  planMeta : String
  periodMeta : String
  priceId : String
  quantity : Nat
  successUrl : String
  cancelUrl : String
deriving Repr, DecidableEq

/-- The arguments of `stripe.subscriptions.update` (lines 161-173). -/
structure SubUpdateParams where
  subscriptionId : String
  itemId : String
  priceId : String
  planMeta : String
  periodMeta : String
deriving Repr, DecidableEq

/-- The externally visible billing effect of a successful POST /upgrade. -/
inductive UpgradeEffect where
  | checkout : CheckoutParams → UpgradeEffect
  | updateSubscription : SubUpdateParams → UpgradeEffect
deriving Repr, DecidableEq

/-- `update org set plan = ${plan} where id = ${orgId}` (lines 176-182). -/
def setPlan (db : Db) (orgId plan : String) : Db :=
  db.map fun o => if o.id == orgId then { o with plan := plan } else o

/-- The POST /upgrade handler.  `prices` models the Stripe price catalog
(`stripe.prices.list` with a lookup key returns exactly the prices whose
lookup key matches); `subItemOf` models
`stripe.subscriptions.retrieve(id).items.data[0].id`.  The result is the
new database state together with the thrown error message or the billing
effect performed.  Note that line 132 tests `org.stripe_subscription`, a
snake_case key that is absent from the camelCase row. -/
def upgrade (prices : List Price) (subItemOf : String → String) (db : Db)
    (orgId plan period origin : String) : Db × Except String UpgradeEffect :=
  let lookupKey := plan ++ "_" ++ period
  match prices.filter (fun p => p.lookupKey == lookupKey) with
  | [] => (db, .error "No price found for this plan and period")
  | price0 :: _ =>
    match findOrg db orgId with
    | none => (db, .error "Org not found")
    | some o =>
      let row := upgradeRow o
      if !(jsTruthy (rowGet row "stripe_subscription")) then
        (db, .ok (.checkout
          ⟨orgId, jsOrUndefined (rowGet row "stripeCustomer"), plan, period,
           price0.id, 1, origin ++ "/billing/thank-you", origin ++ "/billing"⟩))
      else
        match rowGet row "stripeSubscription" with
        | none => (db, .error "No such subscription")
        | some sid =>
            (setPlan db orgId plan,
             .ok (.updateSubscription ⟨sid, subItemOf sid, price0.id, plan, period⟩))

/-- The snake_case key `stripe_subscription` is absent from the camelCase
row, so reading it yields `undefined`. -/
theorem upgradeRow_snake_key_absent (o : Org) :
    rowGet (upgradeRow o) "stripe_subscription" = none := rfl

/-- C2 (counter-evaluation): for an organization that does have a stored
stripe_subscription, POST /upgrade still creates a checkout session and
leaves the org row unchanged, because line 132 tests the snake_case key
`org.stripe_subscription`, which is absent from the camelCase row; the
subscription-update branch (and the comment "Update user subscription with
new price" above it) is unreachable. -/
theorem upgrade_with_subscription_still_creates_checkout :
    upgrade [⟨"price_1", "team_monthly"⟩] (fun _ => "si_1")
      [⟨"org1", "free", "n", 3, some "cus_1", some "sub_1"⟩]
      "org1" "team" "monthly" "https://app"
    = ([⟨"org1", "free", "n", 3, some "cus_1", some "sub_1"⟩],
       Except.ok (.checkout
         ⟨"org1", some "cus_1", "team", "monthly", "price_1", 1,
          "https://app/billing/thank-you", "https://app/billing"⟩)) := by
  rfl

/-- C7: POST /upgrade throws "No price found for this plan and period"
exactly when the price list for the lookup key `plan_period` is empty, and
"Org not found" exactly when the price list is non-empty but no org row
matches the id; on every thrown error the database state is unchanged (and
no billing effect is returned, since the result is not `.ok`). -/
theorem upgrade_error_cases (prices : List Price) (subItemOf : String → String)
    (db : Db) (orgId plan period origin : String) :
    ((upgrade prices subItemOf db orgId plan period origin).2
        = Except.error "No price found for this plan and period"
      ↔ prices.filter (fun p => p.lookupKey == plan ++ "_" ++ period) = []) ∧
    ((upgrade prices subItemOf db orgId plan period origin).2
        = Except.error "Org not found"
      ↔ prices.filter (fun p => p.lookupKey == plan ++ "_" ++ period) ≠ []
          ∧ findOrg db orgId = none) ∧
    (∀ e, (upgrade prices subItemOf db orgId plan period origin).2
        = Except.error e →
      (upgrade prices subItemOf db orgId plan period origin).1 = db) := by
  cases hm : prices.filter (fun p => p.lookupKey == plan ++ "_" ++ period) with
  | nil => simp [upgrade, hm]
  | cons p ps =>
      cases ho : findOrg db orgId with
      | none => simp [upgrade, hm, ho]
      | some o =>
          simp [upgrade, hm, ho, upgradeRow_snake_key_absent, jsTruthy]

/-- Witness for C7: with an empty price catalog the price error is thrown
and the state is unchanged. -/
theorem upgrade_error_cases_witness :
    (upgrade [] (fun _ => "si_1") [] "org1" "team" "monthly" "https://app").2
        = Except.error "No price found for this plan and period"
    ∧ (upgrade [] (fun _ => "si_1") [] "org1" "team" "monthly" "https://app").1 = [] :=
  ⟨(upgrade_error_cases [] (fun _ => "si_1") [] "org1" "team" "monthly" "https://app").1.mpr
     rfl,
   (upgrade_error_cases [] (fun _ => "si_1") [] "org1" "team" "monthly" "https://app").2.2
     "No price found for this plan and period"
     ((upgrade_error_cases [] (fun _ => "si_1") [] "org1" "team" "monthly"
         "https://app").1.mpr rfl)⟩

/-! ### Sequential execution of the module's handlers (C3) -/

/-- `update org set name = ${name} where id = ${orgId}` (PATCH /,
lines 44-50). -/
def setName (db : Db) (orgId name : String) : Db :=
  db.map fun o => if o.id == orgId then { o with name := name } else o

/-- One sequential execution of a handler of this module, viewed as a
transition on the org table.  The GET handlers only read. -/
inductive HandlerStep : Db → Db → Prop
  | getOrg (db : Db) : HandlerStep db db
  | patchOrg (db : Db) (orgId name : String) : HandlerStep db (setName db orgId name)
  | getProjects (db : Db) : HandlerStep db db
  | getUsage (db : Db) : HandlerStep db db
  | postUpgrade (prices : List Price) (subItemOf : String → String) (db : Db)
      (orgId plan period origin : String) :
      HandlerStep db (upgrade prices subItemOf db orgId plan period origin).1
  | postPlayground (rk ok : Option String) (db : Db) (orgId : String)
      (m : Option String) :
      HandlerStep db (playground rk ok db orgId m).1

/-- Every organization's play_allowance is non-negative. -/
def AllowanceNonneg (db : Db) : Prop := ∀ o ∈ db, 0 ≤ o.playAllowance

/-- The org ids are pairwise distinct (`id` is the primary key of the
`org` table). -/
def IdsNodup (db : Db) : Prop := (db.map Org.id).Nodup

/-- Helper: mapping an id-preserving function over the table leaves the
id list unchanged. -/
theorem ids_map_of_id_preserving (db : Db) (f : Org → Org)
    (hf : ∀ o, (f o).id = o.id) : (db.map f).map Org.id = db.map Org.id := by
  rw [List.map_map]
  exact List.map_congr_left fun o _ => hf o

/-- Helper: a pointwise allowance-preserving map keeps the invariant. -/
theorem allowanceNonneg_map (db : Db) (f : Org → Org)
    (hf : ∀ o, (f o).playAllowance = o.playAllowance)
    (h : AllowanceNonneg db) : AllowanceNonneg (db.map f) := by
  intro x hx
  obtain ⟨u, hu, rfl⟩ := List.mem_map.mp hx
  rw [hf u]
  exact h u hu

/-- Helper: the playground handler keeps the allowance invariant: it only
decrements the allowance of the org it found, and only after checking it
to be positive. -/
theorem playground_preserves_allowance (rk ok : Option String) (db : Db)
    (orgId : String) (m : Option String)
    (hnd : IdsNodup db) (hinv : AllowanceNonneg db) :
    AllowanceNonneg (playground rk ok db orgId m).1 := by
  unfold playground
  cases hfo : findOrg db orgId with
  | none =>
      simp [playgroundGuardFails, hfo,
            decrementAllowance_of_findOrg_none db orgId hfo]
      exact hinv
  | some o =>
      by_cases hle : o.playAllowance ≤ 0
      · simp [playgroundGuardFails, hfo, hle]
        exact hinv
      · simp only [playgroundGuardFails, hfo, decide_eq_true_eq, hle, if_false]
        intro x hx
        obtain ⟨u, hu, rfl⟩ := List.mem_map.mp hx
        by_cases hid : (u.id == orgId) = true
        · have hfo' : db.find? (fun x => x.id == orgId) = some o := hfo
          have ho_mem : o ∈ db := List.mem_of_find?_eq_some hfo'
          have ho_id := List.find?_some hfo'
          have hue : u = o := by
            have hinj := List.inj_on_of_nodup_map hnd
            exact hinj hu ho_mem
              ((beq_iff_eq.mp hid).trans (beq_iff_eq.mp ho_id).symm)
          subst hue
          simp only [hid, if_true]
          omega
        · simp only [hid, Bool.false_eq_true, if_false]
          exact hinv u hu

/-- A well-formed table: primary-key uniqueness plus the allowance
invariant. -/
def GoodDb (db : Db) : Prop := IdsNodup db ∧ AllowanceNonneg db

/-- Helper: the database state left by POST /upgrade is either untouched
or has one org's plan updated. -/
theorem upgrade_fst_cases (prices : List Price) (subItemOf : String → String)
    (db : Db) (orgId plan period origin : String) :
    (upgrade prices subItemOf db orgId plan period origin).1 = db ∨
    (upgrade prices subItemOf db orgId plan period origin).1
      = setPlan db orgId plan := by
  cases hm : prices.filter (fun p => p.lookupKey == plan ++ "_" ++ period) with
  | nil => left; simp [upgrade, hm]
  | cons p ps =>
      cases ho : findOrg db orgId with
      | none => left; simp [upgrade, hm, ho]
      | some o =>
          by_cases hb :
              (!jsTruthy (rowGet (upgradeRow o) "stripe_subscription")) = true
          · left; simp [upgrade, hm, ho, hb]
          · cases hs : rowGet (upgradeRow o) "stripeSubscription" with
            | none => left; simp [upgrade, hm, ho, hb, hs]
            | some sid => right; simp [upgrade, hm, ho, hb, hs]

/-- Helper: the database state left by POST /playground is either
untouched or has one org's allowance decremented. -/
theorem playground_fst_cases (rk ok : Option String) (db : Db) (orgId : String)
    (m : Option String) :
    (playground rk ok db orgId m).1 = db ∨
    (playground rk ok db orgId m).1 = decrementAllowance db orgId := by
  by_cases hg : playgroundGuardFails (findOrg db orgId) = true
  · left; simp [playground, hg]
  · right; simp [playground, hg]

/-- Helper: one handler execution preserves well-formedness. -/
theorem handlerStep_preserves (db db' : Db) (h : HandlerStep db db')
    (hg : GoodDb db) : GoodDb db' := by
  obtain ⟨hnd, hinv⟩ := hg
  cases h with
  | getOrg db => exact ⟨hnd, hinv⟩
  | getProjects db => exact ⟨hnd, hinv⟩
  | getUsage db => exact ⟨hnd, hinv⟩
  | patchOrg db orgId name =>
      refine ⟨?_, ?_⟩
      · unfold IdsNodup setName
        rw [ids_map_of_id_preserving]
        · exact hnd
        · intro o; by_cases hid : (o.id == orgId) = true <;> simp [hid]
      · exact allowanceNonneg_map db _
          (fun o => by by_cases hid : (o.id == orgId) = true <;> simp [hid]) hinv
  | postUpgrade prices subItemOf db orgId plan period origin =>
      rcases upgrade_fst_cases prices subItemOf db orgId plan period origin
        with hfst | hfst
      · rw [hfst]; exact ⟨hnd, hinv⟩
      · rw [hfst]
        refine ⟨?_, ?_⟩
        · unfold IdsNodup setPlan
          rw [ids_map_of_id_preserving]
          · exact hnd
          · intro o; by_cases hid : (o.id == orgId) = true <;> simp [hid]
        · exact allowanceNonneg_map db _
            (fun o => by by_cases hid : (o.id == orgId) = true <;> simp [hid]) hinv
  | postPlayground rk ok db orgId m =>
      refine ⟨?_, playground_preserves_allowance rk ok db orgId m hnd hinv⟩
      rcases playground_fst_cases rk ok db orgId m with hfst | hfst
      · rw [hfst]; exact hnd
      · rw [hfst]
        unfold IdsNodup decrementAllowance
        rw [ids_map_of_id_preserving]
        · exact hnd
        · intro o; by_cases hid : (o.id == orgId) = true <;> simp [hid]

/-- C3: under sequential execution, starting from any table with distinct
org ids where every play_allowance is non-negative, no sequence of handler
executions of this module produces a negative play_allowance. -/
theorem allowance_never_negative (db db' : Db)
    (hnd : IdsNodup db) (hinv : AllowanceNonneg db)
    (hsteps : Relation.ReflTransGen HandlerStep db db') :
    AllowanceNonneg db' := by
  have hgood : GoodDb db' := by
    induction hsteps with
    | refl => exact ⟨hnd, hinv⟩
    | tail _ hstep ih => exact handlerStep_preserves _ _ hstep ih
  exact hgood.2

/-- Witness for C3: a playground call on an org with allowance 1 keeps the
invariant. -/
theorem allowance_never_negative_witness :
    AllowanceNonneg
      (playground none none [⟨"org1", "free", "n", 1, none, none⟩] "org1" none).1 :=
  allowance_never_negative [⟨"org1", "free", "n", 1, none, none⟩] _
    (by unfold IdsNodup; decide) (by unfold AllowanceNonneg; decide)
    (Relation.ReflTransGen.single
      (HandlerStep.postPlayground none none _ "org1" none))

/-! ### Evaluation creation view (`pages/evaluations/new.tsx`): C8, C9 -/

/-- JavaScript truthiness of the `datasetId` / `checklistId` state
(`string | null | undefined`): `null`, `undefined` and the empty string
are falsy. -/
def jsTruthyId (v : Option String) : Bool :=
  match v with
  | none => false
  | some s => !(s == "")

/-- Line 85: `const canStartEvaluation = datasetId && models.length > 0 &&
checklistId`; the Start Evaluation button has `disabled={!canStartEvaluation}`. -/
def canStartEvaluation (datasetId : Option String) (models : List String)
    (checklistId : Option String) : Bool :=
  jsTruthyId datasetId && decide (0 < models.length) && jsTruthyId checklistId

/-- The initial `models` state (line 43). -/
def initialModels : List String := ["gpt-4-turbo-preview", "gpt-3.5-turbo"]

/-- Modelled from the spec: the Mantine `MultiSelect` component (its code
is not part of the reviewed files) with `maxValues={3}` (line 146).  Per
the spec, "Selecting more than three models must be rejected by the model
picker": clicking an option toggles it, and a new option is rejected once
`maxValues` options are already selected. -/
def multiSelectToggle (maxValues : Nat) (current : List String)
    (option : String) : List String :=
  if option ∈ current then current.erase option
  else if maxValues ≤ current.length then current
  else current ++ [option]

/-- C8: the Start Evaluation action is enabled iff a dataset is selected,
at least one model is selected, and a checklist is selected (ids coming
from the pickers are non-empty strings); and the model picker, starting
from at most three selected models (as the initial state is), never lets
the selection exceed three. -/
theorem can_start_evaluation_iff_and_max_three_models :
    (∀ (ds cl : Option String) (ms : List String), ds ≠ some "" → cl ≠ some "" →
       (canStartEvaluation ds ms cl = true ↔ ds.isSome ∧ ms ≠ [] ∧ cl.isSome)) ∧
    (∀ (cur : List String) (x : String), cur.length ≤ 3 →
       (multiSelectToggle 3 cur x).length ≤ 3) ∧
    initialModels.length ≤ 3 := by
  refine ⟨?_, ?_, by decide⟩
  · intro ds cl ms hds hcl
    cases ds with
    | none => simp [canStartEvaluation, jsTruthyId]
    | some d =>
        cases cl with
        | none => simp [canStartEvaluation, jsTruthyId]
        | some c =>
            have hd : (d == "") = false := by
              simp only [beq_eq_false_iff_ne, ne_eq]
              intro h; exact hds (by rw [h])
            have hc : (c == "") = false := by
              simp only [beq_eq_false_iff_ne, ne_eq]
              intro h; exact hcl (by rw [h])
            simp [canStartEvaluation, jsTruthyId, hd, hc, List.length_pos]
  · intro cur x hlen
    unfold multiSelectToggle
    by_cases hmem : x ∈ cur
    · simp only [hmem, if_true]
      calc (cur.erase x).length ≤ cur.length := List.length_erase_le x cur
        _ ≤ 3 := hlen
    · by_cases hfull : 3 ≤ cur.length
      · simp [hmem, hfull]
        omega
      · simp [hmem, hfull]
        omega

/-- Witness for C8: one concrete selection of each kind enables the
button, and toggling a fourth model onto a full selection is rejected. -/
theorem can_start_evaluation_witness :
    canStartEvaluation (some "ds_1") ["gpt-3.5-turbo"] (some "cl_1") = true ∧
    (multiSelectToggle 3 ["a", "b", "c"] "d").length ≤ 3 :=
  ⟨(can_start_evaluation_iff_and_max_three_models.1 (some "ds_1") (some "cl_1")
      ["gpt-3.5-turbo"] (by decide) (by decide)).mpr
      ⟨rfl, by decide, rfl⟩,
   can_start_evaluation_iff_and_max_three_models.2.1 ["a", "b", "c"] "d" (by decide)⟩

/-- Line 60: `const timeEstimate = models.length * 3 * 5` (seconds). -/
def timeEstimate (models : List String) : ℚ := models.length * 3 * 5

/-- Lines 64-68: every second the timer sets
`progress = Math.min(100, progress + 100 / timeEstimate, 100)`. -/
def progressTick (models : List String) (progress : ℚ) : ℚ :=
  min 100 (min (progress + 100 / timeEstimate models) 100)

/-- C9: when an evaluation is started with a non-empty model list, the
time estimate equals `models.length * 15` seconds, each one-second tick
adds exactly `100 / timeEstimate` to the progress percentage while the
result stays at most 100, and the displayed progress never exceeds 100. -/
theorem progress_timer_spec (models : List String) (h : models ≠ []) :
    timeEstimate models = models.length * 15 ∧
    (∀ p : ℚ, progressTick models p ≤ 100) ∧
    (∀ p : ℚ, p + 100 / timeEstimate models ≤ 100 →
       progressTick models p = p + 100 / timeEstimate models) := by
  refine ⟨by unfold timeEstimate; ring, fun p => min_le_left _ _, fun p hp => ?_⟩
  unfold progressTick
  rw [min_eq_left hp, min_eq_right hp]

/-- Witness for C9 with a single model: estimate 15 seconds, first tick
moves the progress from 0 to 100/15, still at most 100. -/
theorem progress_timer_spec_witness :
    timeEstimate ["gpt-4"] = 15 ∧ progressTick ["gpt-4"] 0 = 100 / 15 ∧
    progressTick ["gpt-4"] 0 ≤ 100 :=
  ⟨((progress_timer_spec ["gpt-4"] (by decide)).1).trans (by norm_num),
   by
     have h := (progress_timer_spec ["gpt-4"] (by decide)).2.2 0
       (by unfold timeEstimate; norm_num)
     rw [h]
     unfold timeEstimate
     norm_num,
   (progress_timer_spec ["gpt-4"] (by decide)).2.1 0⟩

/-! ### compileTemplate (lines 217-224): C5

`compileTemplate` is `content.replace(/{{(.*?)}}/g, (_, g1) => variables[g1] || "")`.
The replace scans left to right; a match starts at a `{{` and its lazy
group is the shortest run of non-line-terminator characters followed by
`}}`; when a `{{` has no such closing the scan advances one character. -/

/-- The characters that `.` in a JavaScript regex (without the `s` flag)
does not match. -/
def isLineTerminator (c : Char) : Bool :=
  c = '\n' || c = '\r' || c = Char.ofNat 0x2028 || c = Char.ofNat 0x2029

/-- Lazy scan for `(.*?)}}`: the shortest prefix of `l` that is followed
by `}}` and contains no line terminator, together with what follows that
`}}`. -/
def findClose : List Char → Option (List Char × List Char)
  | [] => none
  | c :: rest =>
      if c = '}' ∧ rest.head? = some '}' then some ([], rest.tail)
      else if isLineTerminator c then none
      else (findClose rest).map fun p => (c :: p.1, p.2)

/-- `variables[g1] || ""`: the value stored under the name, or the empty
string when the name is absent from the map (or its value is the empty,
falsy, string). -/
def lookupVar (vars : List (String × String)) (name : String) : String :=
  match vars.find? (fun kv => kv.1 == name) with
  | some kv => kv.2
  | none => ""

/-- Helper: the remainder returned by `findClose` is no longer than its
input. -/
theorem findClose_length_le (l : List Char) :
    ∀ name rest, findClose l = some (name, rest) → rest.length ≤ l.length := by
  induction l with
  | nil => intro name rest h; simp [findClose] at h
  | cons c cs ih =>
      intro name rest h
      simp only [findClose] at h
      by_cases h1 : c = '}' ∧ cs.head? = some '}'
      · rw [if_pos h1] at h
        simp only [Option.some.injEq, Prod.mk.injEq] at h
        obtain ⟨-, hr⟩ := h
        subst hr
        have := List.length_tail cs
        simp only [List.length_cons]
        omega
      · rw [if_neg h1] at h
        by_cases h2 : isLineTerminator c = true
        · rw [if_pos h2] at h; simp at h
        · rw [if_neg h2] at h
          cases hfc : findClose cs with
          | none => rw [hfc] at h; simp at h
          | some p =>
              obtain ⟨pn, pr⟩ := p
              rw [hfc] at h
              have h' := Option.some.inj h
              have hr : pr = rest := congrArg Prod.snd h'
              subst hr
              have := ih pn pr hfc
              simp only [List.length_cons]
              omega

/-- The global regex replace of `/{{(.*?)}}/g` on the character list. -/
def compileChars (vars : List (String × String)) : List Char → List Char
  | [] => []
  | c :: rest =>
      if c = '{' ∧ rest.head? = some '{' then
        match h2 : findClose rest.tail with
        | some (name, rest') =>
            (lookupVar vars (String.mk name)).data
              ++ compileChars vars rest'
        | none => c :: compileChars vars rest
      else c :: compileChars vars rest
termination_by l => l.length
decreasing_by
  · have hle := findClose_length_le rest.tail name rest' h2
    have ht : rest.tail.length ≤ rest.length := by cases rest <;> simp
    simp only [List.length_cons]
    omega
  · simp
  · simp

/-- `compileTemplate` (lines 218-224): replace every `{{name}}` token of
the content by the variable's value. -/
def compileTemplate (content : String) (vars : List (String × String)) :
    String :=
  String.mk (compileChars vars content.data)

/-- A template as a sequence of literal pieces and `{{name}}` tokens. -/
inductive Chunk where
  | lit : String → Chunk
  | var : String → Chunk

/-- The concrete text of one chunk. -/
def renderChunk : Chunk → String
  | .lit s => s
  | .var n => "\x7b\x7b" ++ n ++ "\x7d\x7d"

/-- The concrete text of a template. -/
def renderTemplate : List Chunk → String
  | [] => ""
  | c :: cs => renderChunk c ++ renderTemplate cs

/-- The expected substitution: literals kept verbatim, each token replaced
by the map's value for its name (empty string when absent). -/
def substTemplate (vars : List (String × String)) : List Chunk → String
  | [] => ""
  | .lit s :: cs => s ++ substTemplate vars cs
  | .var n :: cs => lookupVar vars n ++ substTemplate vars cs

/-- Well-formedness: literal text holds no `{` (so it starts no token) and
token names hold no `}` and no line terminator (so the lazy group closes
exactly at the token's own `}}`). -/
def GoodChunk : Chunk → Prop
  | .lit s => ∀ c ∈ s.data, c ≠ '{'
  | .var n => ∀ c ∈ n.data, c ≠ '}' ∧ isLineTerminator c = false

/-- Helper: `findClose` on a well-formed name followed by `}}` returns
exactly the name and the remainder. -/
theorem findClose_name (name rest : List Char)
    (h : ∀ c ∈ name, c ≠ '}' ∧ isLineTerminator c = false) :
    findClose (name ++ '}' :: '}' :: rest) = some (name, rest) := by
  induction name with
  | nil => simp [findClose]
  | cons c cs ih =>
      have hc := h c (by simp)
      have hcs : ∀ x ∈ cs, x ≠ '}' ∧ isLineTerminator x = false :=
        fun x hx => h x (by simp [hx])
      simp only [List.cons_append, findClose, List.append_eq]
      rw [if_neg (by simp [hc.1]), if_neg (by simp [hc.2]), ih hcs]
      rfl

/-- Helper: literal text without `{` passes through the replace
unchanged. -/
theorem compileChars_lit (vars : List (String × String)) (s t : List Char)
    (h : ∀ c ∈ s, c ≠ '{') :
    compileChars vars (s ++ t) = s ++ compileChars vars t := by
  induction s with
  | nil => simp
  | cons c cs ih =>
      have hc := h c (by simp)
      have hcs : ∀ x ∈ cs, x ≠ '{' := fun x hx => h x (by simp [hx])
      rw [List.cons_append, compileChars, if_neg (by simp [hc]), ih hcs]
      rfl

/-- Helper: the replace consumes a whole token when the lazy scan after
its `{{` succeeds. -/
theorem compileChars_token (vars : List (String × String))
    (l name rest' : List Char) (hfc : findClose l = some (name, rest')) :
    compileChars vars ('{' :: '{' :: l)
      = (lookupVar vars (String.mk name)).data ++ compileChars vars rest' := by
  rw [compileChars, if_pos (by simp)]
  have hl : ('{' :: l).tail = l := rfl
  split
  next nm r heq =>
    rw [hl, hfc] at heq
    have h' := Option.some.inj heq
    have hn : name = nm := congrArg Prod.fst h'
    have hr : rest' = r := congrArg Prod.snd h'
    subst hn
    subst hr
    rfl
  next heq =>
    rw [hl, hfc] at heq
    simp at heq

/-- Helper: the replace on the rendered template, at the level of
character lists. -/
theorem compileChars_render (vars : List (String × String))
    (cs : List Chunk) (h : ∀ ch ∈ cs, GoodChunk ch) :
    compileChars vars (renderTemplate cs).data
      = (substTemplate vars cs).data := by
  induction cs with
  | nil =>
      show compileChars vars [] = []
      rw [compileChars]
  | cons ch rest ih =>
      have hch := h ch (by simp)
      have hrest : ∀ x ∈ rest, GoodChunk x := fun x hx => h x (by simp [hx])
      cases ch with
      | lit s =>
          have hdata : (renderTemplate (Chunk.lit s :: rest)).data
              = s.data ++ (renderTemplate rest).data := by
            simp [renderTemplate, renderChunk, String.data_append]
          rw [hdata, compileChars_lit vars s.data _ hch, ih hrest]
          simp [substTemplate, String.data_append]
      | var n =>
          have hdata : (renderTemplate (Chunk.var n :: rest)).data
              = '{' :: '{' :: (n.data ++ '}' :: '}' :: (renderTemplate rest).data) := by
            simp [renderTemplate, renderChunk, String.data_append]
          rw [hdata,
              compileChars_token vars _ n.data (renderTemplate rest).data
                (findClose_name n.data (renderTemplate rest).data hch),
              ih hrest]
          simp [substTemplate, String.data_append]

/-- C5: for every well-formed template (literal text with no `{`, token
names with no `}` and no line terminator) and every variable map,
`compileTemplate` replaces every `{{name}}` token by the map's value for
the name, leaves all literal text unchanged, and replaces a token whose
name is absent from the map (or maps to the empty string) by the empty
string — `substTemplate` looks names up with default `""`. -/
theorem compileTemplate_substitutes (cs : List Chunk)
    (h : ∀ ch ∈ cs, GoodChunk ch) (vars : List (String × String)) :
    compileTemplate (renderTemplate cs) vars = substTemplate vars cs := by
  unfold compileTemplate
  rw [compileChars_render vars cs h]

/-- Witness for C5: a mapped token, an unmapped token, and literal text
around them. -/
theorem compileTemplate_substitutes_witness :
    compileTemplate "Hi \x7b\x7bname\x7d\x7d, \x7b\x7bx\x7d\x7d!" [("name", "World")]
      = "Hi World, !" := by
  have h := compileTemplate_substitutes
    [Chunk.lit "Hi ", Chunk.var "name", Chunk.lit ", ", Chunk.var "x",
     Chunk.lit "!"]
    (by
      intro ch hch
      fin_cases hch
      · show ∀ c ∈ ("Hi " : String).data, c ≠ '{'
        decide
      · show ∀ c ∈ ("name" : String).data, c ≠ '}' ∧ isLineTerminator c = false
        decide
      · show ∀ c ∈ (", " : String).data, c ≠ '{'
        decide
      · show ∀ c ∈ ("x" : String).data, c ≠ '}' ∧ isLineTerminator c = false
        decide
      · show ∀ c ∈ ("!" : String).data, c ≠ '{'
        decide)
    [("name", "World")]
  exact h

/-! ### GET /usage (lines 73-95): C6 -/

/-- A `run` table row: the project (`app`) it belongs to and its creation
timestamp in epoch seconds. -/
structure RunRow where
  app : String
  createdAt : Int
deriving Repr, DecidableEq

/-- An `app` (project) table row. -/
structure AppRow where
  id : String
  orgId : String
deriving Repr, DecidableEq

/-- `date_trunc('day', created_at)`: the calendar day of a timestamp
(floor division by the 86400 seconds of a day). -/
def dayOf (t : Int) : Int := Int.fdiv t 86400

/-- `r.created_at > now() - interval '30 days'`. -/
def inWindow (now t : Int) : Bool := decide (t > now - 2592000)

/-- The rows the query ranges over: with a `projectId` the `run` table
filtered by `r.app = ${projectId}`; without one the join
`run r join app a on r.app = a.id` filtered by `a.org_id = ${orgId}` (one
joined row per matching app row); both restricted to the 30-day window. -/
def usageRows (apps : List AppRow) (runs : List RunRow) (orgId : String)
    (projectId : Option String) (now : Int) : List RunRow :=
  match projectId with
  | some pid => runs.filter fun r => r.app == pid && inWindow now r.createdAt
  | none =>
      (runs.flatMap fun r =>
        (apps.filter fun a => a.id == r.app && a.orgId == orgId).map fun _ => r
      ).filter fun r => inWindow now r.createdAt

/-- Insertion into a descending-sorted list of days. -/
def insertDesc (x : Int) : List Int → List Int
  | [] => [x]
  | y :: ys => if y ≤ x then x :: y :: ys else y :: insertDesc x ys

/-- `order by date desc`. -/
def sortDesc : List Int → List Int
  | [] => []
  | x :: xs => insertDesc x (sortDesc xs)

/-- The GET /usage handler: group the selected rows by day, count each
group, order the days descending. -/
def usage (apps : List AppRow) (runs : List RunRow) (orgId : String)
    (projectId : Option String) (now : Int) : List (Int × Nat) :=
  (sortDesc
      (((usageRows apps runs orgId projectId now).map
          fun r => dayOf r.createdAt).dedup)).map
    fun d =>
      (d, ((usageRows apps runs orgId projectId now).filter
            fun r => dayOf r.createdAt == d).length)

/-- The runs the claim says are counted: created within the trailing
30-day window and belonging to the given project (when `projectId` is
present) or to any app of the organization (when it is absent). -/
def runCounted (apps : List AppRow) (orgId : String) (projectId : Option String)
    (now : Int) (r : RunRow) : Bool :=
  (match projectId with
   | some pid => r.app == pid
   | none => apps.any fun a => a.id == r.app && a.orgId == orgId) &&
  inWindow now r.createdAt

/-- Helper: with distinct app ids (the primary key), joining one run
against the app table yields the run once when an owning app matches, and
nothing otherwise. -/
theorem join_one_run (apps : List AppRow) (r : RunRow) (orgId : String)
    (hnd : (apps.map AppRow.id).Nodup) :
    ((apps.filter fun a => a.id == r.app && a.orgId == orgId).map fun _ => r)
      = if apps.any fun a => a.id == r.app && a.orgId == orgId then [r]
        else [] := by
  induction apps with
  | nil => rfl
  | cons a rest ih =>
      rw [List.map_cons, List.nodup_cons] at hnd
      obtain ⟨hnotin, hnd'⟩ := hnd
      by_cases hq : (a.id == r.app && a.orgId == orgId) = true
      · have hid : a.id = r.app := beq_iff_eq.mp (Bool.and_elim_left hq)
        have hrest : rest.filter (fun b => b.id == r.app && b.orgId == orgId)
            = [] := by
          rw [List.filter_eq_nil_iff]
          intro b hb hqb
          have hbid : b.id = r.app := beq_iff_eq.mp (Bool.and_elim_left hqb)
          exact hnotin (List.mem_map.mpr ⟨b, hb, by rw [hbid, hid]⟩)
        simp [List.filter_cons, hq, List.any_cons, hrest]
      · simp [List.filter_cons, hq, List.any_cons, ih hnd']

/-- Helper: with distinct app ids, the rows the query ranges over are
exactly the runs satisfying the claim's predicate. -/
theorem usageRows_eq_filter (apps : List AppRow) (runs : List RunRow)
    (orgId : String) (projectId : Option String) (now : Int)
    (hnd : (apps.map AppRow.id).Nodup) :
    usageRows apps runs orgId projectId now
      = runs.filter (runCounted apps orgId projectId now) := by
  cases projectId with
  | some pid => rfl
  | none =>
      show ((runs.flatMap fun r =>
              (apps.filter fun a => a.id == r.app && a.orgId == orgId).map
                fun _ => r).filter fun r => inWindow now r.createdAt)
          = runs.filter fun r =>
              (apps.any fun a => a.id == r.app && a.orgId == orgId)
                && inWindow now r.createdAt
      induction runs with
      | nil => rfl
      | cons r rs ih =>
          rw [List.flatMap_cons, List.filter_append, join_one_run apps r orgId hnd]
          by_cases hq : (apps.any fun a => a.id == r.app && a.orgId == orgId) = true
          · rw [if_pos hq]
            by_cases hw : inWindow now r.createdAt = true
            · simp only [List.filter_cons, hq, hw, Bool.and_self, if_true,
                List.filter_nil, List.cons_append, List.nil_append, ih]
            · simp only [List.filter_cons, hq, hw, Bool.and_false, Bool.false_eq_true,
                if_false, List.filter_nil, List.nil_append, ih]
          · rw [if_neg hq]
            simp only [Bool.not_eq_true] at hq
            simp only [List.filter_cons, hq, Bool.false_and, Bool.false_eq_true,
              if_false, List.filter_nil, List.nil_append, ih]

/-- Helper: inserting permutes. -/
theorem insertDesc_perm (x : Int) (l : List Int) :
    List.Perm (insertDesc x l) (x :: l) := by
  induction l with
  | nil => exact List.Perm.refl _
  | cons y ys ih =>
      unfold insertDesc
      by_cases hxy : y ≤ x
      · rw [if_pos hxy]
      · rw [if_neg hxy]
        exact List.Perm.trans (ih.cons y) (List.Perm.swap x y ys)

/-- Helper: sorting permutes. -/
theorem sortDesc_perm (l : List Int) : List.Perm (sortDesc l) l := by
  induction l with
  | nil => exact List.Perm.refl _
  | cons x xs ih =>
      exact List.Perm.trans (insertDesc_perm x (sortDesc xs)) (ih.cons x)

/-- Helper: inserting keeps the descending order. -/
theorem insertDesc_sorted (x : Int) (l : List Int)
    (h : List.Pairwise (fun a b : Int => b ≤ a) l) :
    List.Pairwise (fun a b : Int => b ≤ a) (insertDesc x l) := by
  induction l with
  | nil => simp [insertDesc]
  | cons y ys ih =>
      rw [List.pairwise_cons] at h
      obtain ⟨hy, hys⟩ := h
      unfold insertDesc
      by_cases hxy : y ≤ x
      · rw [if_pos hxy, List.pairwise_cons]
        refine ⟨?_, List.pairwise_cons.mpr ⟨hy, hys⟩⟩
        intro b hb
        rcases List.mem_cons.mp hb with rfl | hb
        · exact hxy
        · exact le_trans (hy b hb) hxy
      · rw [if_neg hxy, List.pairwise_cons]
        refine ⟨?_, ih hys⟩
        intro b hb
        rcases List.mem_cons.mp ((insertDesc_perm x ys).mem_iff.mp hb) with rfl | hb
        · exact le_of_not_le hxy
        · exact hy b hb

/-- Helper: the sort output is descending. -/
theorem sortDesc_sorted (l : List Int) :
    List.Pairwise (fun a b : Int => b ≤ a) (sortDesc l) := by
  induction l with
  | nil => simp [sortDesc]
  | cons x xs ih => exact insertDesc_sorted x (sortDesc xs) ih

/-- C6: with distinct app ids (the primary key), GET /usage returns days
in strictly descending order, and a pair `(d, c)` appears in the result
exactly when `c` is positive and equals the number of runs created on day
`d` within the trailing 30-day window that belong to the given project
(`projectId` present) or to any app of the organization (`projectId`
absent). -/
theorem usage_correct (apps : List AppRow) (runs : List RunRow)
    (orgId : String) (projectId : Option String) (now : Int)
    (hnd : (apps.map AppRow.id).Nodup) :
    List.Pairwise (fun a b : Int × Nat => b.1 < a.1)
      (usage apps runs orgId projectId now) ∧
    (∀ d c, (d, c) ∈ usage apps runs orgId projectId now ↔
      0 < c ∧
      c = ((runs.filter (runCounted apps orgId projectId now)).filter
            (fun r => dayOf r.createdAt == d)).length) := by
  have hrows := usageRows_eq_filter apps runs orgId projectId now hnd
  constructor
  · unfold usage
    rw [List.pairwise_map]
    have hsor := sortDesc_sorted
      (((usageRows apps runs orgId projectId now).map
          fun r => dayOf r.createdAt).dedup)
    have hnodup :
        (sortDesc (((usageRows apps runs orgId projectId now).map
            fun r => dayOf r.createdAt).dedup)).Nodup :=
      ((sortDesc_perm _).nodup_iff).mpr (List.nodup_dedup _)
    have hand := List.Pairwise.and hsor hnodup
    exact hand.imp fun hab => lt_of_le_of_ne hab.1 (Ne.symm hab.2)
  · intro d c
    unfold usage
    rw [List.mem_map]
    constructor
    · rintro ⟨d', hd', hfd⟩
      have h1 : d' = d := congrArg Prod.fst hfd
      subst h1
      have h2 : ((usageRows apps runs orgId projectId now).filter
          (fun r => dayOf r.createdAt == d')).length = c := congrArg Prod.snd hfd
      rw [← hrows]
      refine ⟨?_, h2.symm⟩
      rw [← h2]
      have hd'' := (sortDesc_perm _).mem_iff.mp hd'
      rw [List.mem_dedup, List.mem_map] at hd''
      obtain ⟨r, hr, hrd⟩ := hd''
      exact List.length_pos_of_mem
        (List.mem_filter.mpr ⟨hr, by simp [hrd]⟩)
    · rintro ⟨hc, hcc⟩
      rw [← hrows] at hcc
      have hpos : 0 < ((usageRows apps runs orgId projectId now).filter
          (fun r => dayOf r.createdAt == d)).length := hcc ▸ hc
      obtain ⟨r, hr⟩ := List.exists_mem_of_length_pos hpos
      have hr' := List.mem_filter.mp hr
      refine ⟨d, ?_, ?_⟩
      · rw [(sortDesc_perm _).mem_iff, List.mem_dedup, List.mem_map]
        exact ⟨r, hr'.1, beq_iff_eq.mp hr'.2⟩
      · rw [hcc]

/-- Witness for C6: one app of the org and one recent run yield a single
one-run day. -/
theorem usage_correct_witness :
    (0, 1) ∈ usage [⟨"app1", "org1"⟩] [⟨"app1", 100⟩] "org1" none 0 :=
  ((usage_correct [⟨"app1", "org1"⟩] [⟨"app1", 100⟩] "org1" none 0
      (by decide)).2 0 1).mpr (by decide)

end Lunary
